import Mathlib

/-!
Verification of `run_summary.py` (https://github.com/aekiss/run_summary).

This file gives a shallow embedding of the aggregation logic of
`run_summary.py`: the Python value/subscript model and `dictget`, the PBS
log parser `parse_pbs_log` with its field-extractor table, the git-log
field splitter of `parse_git_log`, the config/namelist readers
`parse_config_yaml` and `parse_nml`, and the duplicate-run resolver and
registry pipeline of `run_summary`.  File contents and external process
output are passed in explicitly (a file system is a lookup function or an
association list; git output is a string), so every definition is
executable.  Python exceptions are modelled with `Except`; Python `None`
is `Option.none` (or `PyVal.none` inside value trees); machine floats are
modelled with exact rationals, which agrees with IEEE double arithmetic on
every concrete input evaluated below.
-/

namespace RunSummary

/-- Python exception classes relevant to `run_summary.py`. -/
inductive PyErr where
  | keyError
  | typeError
  | indexError
  | valueError
  deriving Repr, DecidableEq

/-- A Python value usable as a subscript in `run_summary.py`
(`d[k]` with `k` a string or an integer). -/
inductive PyKey where
  | int (n : Int)
  | str (s : String)
  deriving Repr, DecidableEq

/-- A Python value tree: `None`, scalars, lists, and dicts
(a dict is an insertion-ordered association list). -/
inductive PyVal where
  | none
  | int (n : Int)
  | float (q : ℚ)
  | str (s : String)
  | list (xs : List PyVal)
  | dict (xs : List (PyKey × PyVal))

/-- Lookup in an insertion-ordered association list (first match),
as Python dict lookup on unique keys. -/
def lookupA {κ α : Type _} [DecidableEq κ] : List (κ × α) → κ → Option α
  | [], _ => Option.none
  | (k', v) :: rest, k => if k' = k then some v else lookupA rest k

/-- Python dict assignment `d[k] = v`: replace in place if the key exists
(keeping its position), else append at the end. -/
def updateA {κ α : Type _} [DecidableEq κ] : List (κ × α) → κ → α → List (κ × α)
  | [], k, v => [(k, v)]
  | (k', v') :: rest, k, v =>
    if k' = k then (k, v) :: rest else (k', v') :: updateA rest k v

/-- Python subscripting `d[k]` (`__getitem__`) for the value shapes that occur
in `run_summary.py`: dict lookup (`KeyError` on a missing key), list and string
indexing with negative-index support (`IndexError` out of range, `TypeError`
for a non-integer index), `TypeError` for non-subscriptable values. -/
def pySub : PyVal → PyKey → Except PyErr PyVal
  | PyVal.dict entries, k =>
    match lookupA entries k with
    | some v => Except.ok v
    | Option.none => Except.error PyErr.keyError
  | PyVal.list xs, PyKey.int i =>
    if 0 ≤ i ∧ i < xs.length then
      Except.ok (xs.getD i.toNat PyVal.none)
    else if -(xs.length : Int) ≤ i ∧ i < 0 then
      Except.ok (xs.getD (i + xs.length).toNat PyVal.none)
    else Except.error PyErr.indexError
  | PyVal.list _, PyKey.str _ => Except.error PyErr.typeError
  | PyVal.str s, PyKey.int i =>
    if 0 ≤ i ∧ i < s.length then
      Except.ok (PyVal.str (String.mk [s.data.getD i.toNat ' ']))
    else if -(s.length : Int) ≤ i ∧ i < 0 then
      Except.ok (PyVal.str (String.mk [s.data.getD (i + s.length).toNat ' ']))
    else Except.error PyErr.indexError
  | PyVal.str _, PyKey.str _ => Except.error PyErr.typeError
  | _, _ => Except.error PyErr.typeError

/-- The recursion of `dictget` over a non-`None` key list
(`run_summary.py` lines 270-283): `d[l[0]]` with `KeyError`/`TypeError`
caught and turned into `None`; any other exception (in particular the
`IndexError` from an out-of-range list index) propagates; on success
either return the value (when the key list is a singleton) or recurse. -/
def dictgetList : PyVal → List PyKey → Except PyErr PyVal
  | _, [] => Except.error PyErr.indexError
  | d, k :: rest =>
    match pySub d k with
    | Except.error PyErr.keyError => Except.ok PyVal.none
    | Except.error PyErr.typeError => Except.ok PyVal.none
    | Except.error e => Except.error e
    | Except.ok v =>
      match rest with
      | [] => Except.ok v
      | _ :: _ => dictgetList v rest

/-- `dictget(d, l)` from `run_summary.py`.  `l = None` means Python `None`:
evaluating `l[0]` then raises `TypeError` inside the `try` block, which is
caught and returns `None`.  An empty key list raises `IndexError` at `l[0]`,
which is not caught. -/
def dictget (d : PyVal) (l : Option (List PyKey)) : Except PyErr PyVal :=
  match l with
  | Option.none => Except.ok PyVal.none
  | some keys => dictgetList d keys

/-- Python `s.lstrip(cs)`: remove leading characters drawn from `cs`. -/
def pyLstrip (s cs : String) : String :=
  String.mk (s.data.dropWhile (fun c => cs.data.contains c))

/-- Python `s.rstrip(cs)`: remove trailing characters drawn from `cs`. -/
def pyRstrip (s cs : String) : String :=
  String.mk ((s.data.reverse.dropWhile (fun c => cs.data.contains c)).reverse)

/-- Python `s.strip(cs)`: remove characters drawn from `cs` at both ends. -/
def pyStrip (s cs : String) : String :=
  pyLstrip (pyRstrip s cs) cs

/-- Python `s.strip()` with no argument: remove surrounding whitespace. -/
def pyTrimWs (cs : List Char) : List Char :=
  ((cs.dropWhile Char.isWhitespace).reverse.dropWhile Char.isWhitespace).reverse

/-- If `l` starts with `patt`, return the remainder after it. -/
def stripSeq : List Char → List Char → Option (List Char)
  | [], l => some l
  | _ :: _, [] => Option.none
  | p :: ps, c :: cs => if c = p then stripSeq ps cs else Option.none

/-- Fuel-driven core of Python `s.split(sep)` on character lists: scan left
to right, cutting at each leftmost non-overlapping occurrence of `sep`.
`fuel = length + 1` suffices for any non-empty separator (every step
consumes at least one character). -/
def splitSepAux (sep : List Char) : Nat → List Char → List Char → List (List Char)
  | 0, l, acc => [acc.reverse ++ l]
  | _ + 1, [], acc => [acc.reverse]
  | fuel + 1, c :: cs, acc =>
    match stripSeq sep (c :: cs) with
    | some rest => acc.reverse :: splitSepAux sep fuel rest []
    | Option.none => splitSepAux sep fuel cs (c :: acc)

/-- Python `s.split(sep)` for a non-empty separator string. -/
def pySplitStr (s sep : String) : List String :=
  (splitSepAux sep.data (s.data.length + 1) s.data []).map String.mk

/-- Whether `l` ends with `suf`. -/
def listEndsWith (l suf : List Char) : Bool :=
  (stripSeq suf.reverse l.reverse).isSome

/-- Value of a non-empty all-digit character list, else `none`. -/
def digitsVal? (cs : List Char) : Option Nat :=
  if cs ≠ [] ∧ cs.all Char.isDigit then
    some (cs.foldl (fun a c => a * 10 + (c.toNat - 48)) 0)
  else Option.none

/-- Python `int(s)` on the decimal strings occurring in PBS logs: surrounding
whitespace ignored, optional sign, then a non-empty digit string; `none`
models `ValueError`. -/
def pyInt? (s : String) : Option Int :=
  match pyTrimWs s.data with
  | '+' :: rest => (digitsVal? rest).map Int.ofNat
  | '-' :: rest => (digitsVal? rest).map (fun n => -(n : Int))
  | cs => (digitsVal? cs).map Int.ofNat

/-- Digit-list-or-empty check with value (`""`, the integer or fractional part
of a Python float literal, contributes 0). -/
def digitsValD (cs : List Char) : Option Nat :=
  if cs.all Char.isDigit then
    some (cs.foldl (fun a c => a * 10 + (c.toNat - 48)) 0)
  else Option.none

/-- Unsigned part of Python `float(s)` for plain decimal literals
`ddd`, `ddd.`, `.ddd`, `ddd.ddd`; `none` models `ValueError`.  The value
`iii.fff` is the exact rational `(iii * 10^d + fff) / 10^d`. -/
def pyFloatCore (cs : List Char) : Option ℚ :=
  match cs.splitOn '.' with
  | [a] => (digitsVal? a).map (fun n => mkRat n 1)
  | [a, b] =>
    if a = [] ∧ b = [] then Option.none
    else
      match digitsValD a, digitsValD b with
      | some ia, some fb => some (mkRat (ia * 10 ^ b.length + fb) (10 ^ b.length))
      | _, _ => Option.none
  | _ => Option.none

/-- Python `float(s)` for the decimal strings occurring in PBS logs, as an
exact rational; `none` models `ValueError`. -/
def pyFloat? (s : String) : Option ℚ :=
  match pyTrimWs s.data with
  | '+' :: rest => pyFloatCore rest
  | '-' :: rest => (pyFloatCore rest).map (fun q => mkRat (-q.num) q.den)
  | cs => pyFloatCore cs

/-- Multiply a rational by a natural number (the 1024-based unit factor),
as an explicit normalized fraction. -/
def ratMulNat (q : ℚ) (m : Nat) : ℚ := mkRat (q.num * m) q.den

/-- Python `round` to an integer, as rounding half up:
`round(q) = floor(q + 1/2) = floor((2 num + den) / (2 den))`.  Python rounds
half to even; the two agree except at exact halves, and no value evaluated
in this file sits at an exact half. -/
def pyRound (q : ℚ) : Int := ⌊mkRat (2 * q.num + (q.den : Int)) (2 * q.den)⌋

/-- Python `s.split()` with no separator: split on whitespace runs,
discarding empty tokens. -/
def pySplitWs (s : String) : List String :=
  ((s.data.splitOnP (fun c => c.isWhitespace)).map String.mk).filter (fun t => t ≠ "")

/-- Python list indexing `l[i]` for a non-negative literal index:
`IndexError` when out of range. -/
def idx {α : Type _} (l : List α) (i : Nat) : Except PyErr α :=
  match l.get? i with
  | some a => Except.ok a
  | Option.none => Except.error PyErr.indexError

/-- Python `int(s)` with `ValueError` as an exception. -/
def toIntEx (s : String) : Except PyErr Int :=
  match pyInt? s with
  | some n => Except.ok n
  | Option.none => Except.error PyErr.valueError

/-- Python `float(s)` with `ValueError` as an exception. -/
def toFloatEx (s : String) : Except PyErr ℚ :=
  match pyFloat? s with
  | some q => Except.ok q
  | Option.none => Except.error PyErr.valueError

/-! ### `parse_pbs_log` (`run_summary.py` lines 57-146)

Each extractor below is one of the local functions of `parse_pbs_log`,
applied to the whitespace-delimited token list following a search marker. -/

/-- `null(l) = l[1]`. -/
def exNull (l : List String) : Except PyErr PyVal := do
  let s ← idx l 1
  Except.ok (PyVal.str s)

/-- `getrun(l) = int(l[4].rstrip('"'))`. -/
def exGetrun (l : List String) : Except PyErr PyVal := do
  let s ← idx l 4
  let n ← toIntEx (pyRstrip s "\"")
  Except.ok (PyVal.int n)

/-- `getjob(l) = int(l[1].split('.')[0])`. -/
def exGetjob (l : List String) : Except PyErr PyVal := do
  let s ← idx l 1
  let n ← toIntEx (String.mk ((s.data.splitOn '.').headD []))
  Except.ok (PyVal.int n)

/-- `getint(l) = int(l[1])`. -/
def exGetint (l : List String) : Except PyErr PyVal := do
  let s ← idx l 1
  let n ← toIntEx s
  Except.ok (PyVal.int n)

/-- `getfloat(l) = float(l[1])`. -/
def exGetfloat (l : List String) : Except PyErr PyVal := do
  let s ← idx l 1
  let q ← toFloatEx s
  Except.ok (PyVal.float q)

/-- Left-to-right sum of `x * int(t)` over zipped (multiplier, token) pairs;
the first malformed token raises `ValueError`. -/
def sumZip : List (Int × String) → Except PyErr Int
  | [] => Except.ok 0
  | (x, t) :: rest => do
    let n ← toIntEx t
    let srest ← sumZip rest
    Except.ok (x * n + srest)

/-- `getsec(l)`: convert `hh:mm:ss` to seconds,
`sum(x * int(t) for x, t in zip([3600, 60, 1], l[1].split(':')))`. -/
def exGetsec (l : List String) : Except PyErr PyVal := do
  let s ← idx l 1
  let n ← sumZip (List.zip [(3600 : Int), 60, 1] ((s.data.splitOn ':').map String.mk))
  Except.ok (PyVal.int n)

/-- `getdatetime(l) = l[0] + 'T' + l[1].rstrip(':')`. -/
def exGetdatetime (l : List String) : Except PyErr PyVal := do
  let a ← idx l 0
  let b ← idx l 1
  Except.ok (PyVal.str (a ++ "T" ++ pyRstrip b ":"))

/-- The binary (1024-based) unit multipliers of `getbytes`; a unit outside
the table raises `KeyError`. -/
def unitsTable : String → Option Nat
  | "B" => some 1
  | "KB" => some (2 ^ 10)
  | "MB" => some (2 ^ 20)
  | "GB" => some (2 ^ 30)
  | "TB" => some (2 ^ 40)
  | _ => Option.none

/-- `getbytes(l) = int(round(float(ns) * units[s[len(ns):]]))` where
`s = l[1]` and `ns = s.strip('BKMGT')`.  `float(ns)` is evaluated before the
unit lookup, so a malformed number raises `ValueError` even when the unit is
also bad. -/
def exGetbytes (l : List String) : Except PyErr PyVal := do
  let s ← idx l 1
  let ns := pyStrip s "BKMGT"
  let q ← toFloatEx ns
  match unitsTable (String.mk (s.data.drop ns.length)) with
  | some m => Except.ok (PyVal.int (pyRound (ratMulNat q m)))
  | Option.none => Except.error PyErr.keyError

/-- The `search_items` table of `parse_pbs_log`: marker strings paired with
the extractor applied to the whitespace-delimited tokens after the marker. -/
def search_items : List (String × (List String → Except PyErr PyVal)) :=
  [("git commit", exGetrun),
   ("Resource Usage on", exGetdatetime),
   ("Job Id", exGetjob),
   ("Project", exNull),
   ("Exit Status", exGetint),
   ("Service Units", exGetfloat),
   ("NCPUs Requested", exGetint),
   ("NCPUs Used", exGetint),
   ("CPU Time Used", exGetsec),
   ("Memory Requested", exGetbytes),
   ("Memory Used", exGetbytes),
   ("Walltime requested", exGetsec),
   ("Walltime Used", exGetsec),
   ("JobFS requested", exGetbytes),
   ("JobFS used", exGetbytes)]

/-- The parsed-items dict: marker (or renamed) keys to optional values,
insertion-ordered like a Python dict. -/
abbrev PbsDict := List (String × Option PyVal)

/-- `search_items.fromkeys(search_items, None)`. -/
def initItems : PbsDict :=
  search_items.map (fun kv => (kv.1, Option.none))

/-- One `try/except IndexError` step of the parse loop:
`parsed_items[key] = op(line.split(key)[1].split())`.  A missing marker
(`line.split(key)` has no index 1) or an `IndexError` inside the extractor is
caught and leaves the dict unchanged; any other exception propagates. -/
def applyKey (items : PbsDict) (line : String)
    (kv : String × (List String → Except PyErr PyVal)) : Except PyErr PbsDict :=
  match (pySplitStr line kv.1).get? 1 with
  | Option.none => Except.ok items
  | some rest =>
    match kv.2 (pySplitWs rest) with
    | Except.ok v => Except.ok (updateA items kv.1 (some v))
    | Except.error PyErr.indexError => Except.ok items
    | Except.error e => Except.error e

/-- Apply every `(key, op)` pair of the table to one line, in table order. -/
def foldKeys (line : String) : PbsDict →
    List (String × (List String → Except PyErr PyVal)) → Except PyErr PbsDict
  | items, [] => Except.ok items
  | items, kv :: rest =>
    match applyKey items line kv with
    | Except.ok items' => foldKeys line items' rest
    | Except.error e => Except.error e

/-- The per-line loop of `parse_pbs_log` over the whole file. -/
def foldLines : PbsDict → List String → Except PyErr PbsDict
  | items, [] => Except.ok items
  | items, line :: rest =>
    match foldKeys line items search_items with
    | Except.ok items' => foldLines items' rest
    | Except.error e => Except.error e

/-- `parsed_items[newkey] = parsed_items.pop(oldkey)`: remove the old key and
append the new key with its value at the end, as Python dict insertion does. -/
def popAssign (items : PbsDict) (oldKey newKey : String) : PbsDict :=
  let v := (lookupA items oldKey).getD Option.none
  items.filter (fun p => p.1 ≠ oldKey) ++ [(newKey, v)]

/-- `parse_pbs_log` on the list of lines of a PBS log file: run the marker
table over every line (later matches overwrite earlier ones), then rename
`git commit` to `Run number` and `Resource Usage on` to
`Run completion date`. -/
def parse_pbs_log (lines : List String) : Except PyErr PbsDict :=
  match foldLines initItems lines with
  | Except.error e => Except.error e
  | Except.ok items =>
    Except.ok (popAssign (popAssign items "git commit" "Run number")
      "Resource Usage on" "Run completion date")

/-! ### `parse_git_log` (`run_summary.py` lines 149-175)

The subprocess pipeline is external; its decoded stdout is passed in as a
string.  The in-source post-processing splits it on tabs and indexes fields
0-3 unconditionally. -/

/-- The field extraction of `parse_git_log`:
`log = stdout.split('\t')` followed by `log[0]`, `log[1]`, `log[2]`,
`log[3].strip()`.  Any missing index raises `IndexError`. -/
def parse_git_log_fields (out : String) : Except PyErr (List (String × String)) := do
  let log := pySplitStr out "\t"
  let c ← idx log 0
  let a ← idx log 1
  let d ← idx log 2
  let m ← idx log 3
  Except.ok [("Commit", c), ("Author", a), ("Date", d),
             ("Message", String.mk (pyTrimWs m.data))]

/-- Modelled from the spec: the git pipeline
`git log -1 --pretty="format:..." \x60git rev-list -1 --before=T HEAD\x60` is an
external collaborator not present under `src/`.  Per the spec, the revision
history is queryable by time and the query can yield no result; when the
repository has no commit at or before the reference timestamp the pipeline
writes nothing to stdout, so `p.communicate()[0]` decodes to the empty
string. -/
def noCommitOutput : String := ""

/-! ### `parse_config_yaml` and `parse_nml` (`run_summary.py` lines 205-240)

The file system is passed in explicitly: for `parse_config_yaml` a lookup
function from full file names to parsed content (`isfile` is success of the
lookup, `yaml.load` is the content), for `parse_nml` an association list of
full file names to parsed namelists so that the glob can enumerate files.
Both are generic in the tree type, which neither function inspects;
`Option.none` as a result models the empty Python dict default. -/

/-- `parse_config_yaml`: walk the candidate base paths in order and return
the content of the first existing `config.yaml`, or the empty default. -/
def parse_config_yaml {α : Type _} (fs : String → Option α) : List String → Option α
  | [] => Option.none
  | p :: rest =>
    match fs (p ++ "/config.yaml") with
    | some t => some t
    | Option.none => parse_config_yaml fs rest

/-- Whether a file name matches `glob(os.path.join(path, '*/*.nml'))`:
under `path`, exactly two further components, the last ending in `.nml`
(`*` does not match a path separator). -/
def isNmlGlobMatch (path f : String) : Bool :=
  match stripSeq (path.data ++ ['/']) f.data with
  | Option.none => false
  | some r => listEndsWith r ".nml".data && (r.splitOn '/').length == 2

/-- The glob over the modelled file system, in directory (list) order. -/
def globNml {α : Type _} (fs : List (String × α)) (path : String) : List String :=
  (fs.map Prod.fst).filter (fun f => isNmlGlobMatch path f)

/-- The relative key of a discovered namelist file:
`fname.split(path)[1].strip('/')`. -/
def relKey (path f : String) : String :=
  pyStrip ((pySplitStr f path).getD 1 "") "/"

/-- One step of the inner loop of `parse_nml`: if the file exists, read it
and assign it under its relative key (overwriting an earlier entry with the
same key). -/
def nmlStep {α : Type _} (fs : List (String × α)) (path : String)
    (items : List (String × Option α)) (f : String) : List (String × Option α) :=
  match lookupA fs f with
  | some t => updateA items (relKey path f) (some t)
  | Option.none => items

/-- `parse_nml`: seed `accessom2.nml = None`, then for **every** candidate
path (the loop has no break) read `path/accessom2.nml` and all glob matches;
entries from later paths overwrite entries with the same relative key from
earlier paths. -/
def parse_nml {α : Type _} (fs : List (String × α)) (paths : List String) :
    List (String × Option α) :=
  paths.foldl (fun items path =>
    ((path ++ "/accessom2.nml") :: globNml fs path).foldl (nmlStep fs path) items)
    [("accessom2.nml", Option.none)]

/-! ### The duplicate-run resolver (`run_summary.py` lines 347-378)

A successful run record as seen by the resolver: the job id (the
`run_data` key), the run number (the sort key) and the completion date
string (the tie-break, compared as Python compares strings). -/

/-- Python string comparison `a < b` on character lists: lexicographic on
code points. -/
def pyStrLtB : List Char → List Char → Bool
  | [], [] => false
  | [], _ :: _ => true
  | _ :: _, [] => false
  | a :: as, b :: bs => if a < b then true else if b < a then false else pyStrLtB as bs

/-- Python string comparison `a < b` (the completion-date tie-break of the
resolver compares date strings). -/
def pyStrLt (a b : String) : Bool := pyStrLtB a.data b.data

/-- One successful run as handled by the resolver. -/
structure RunRecord where
  jobid : Int
  runNumber : Int
  date : String
  deriving Repr, DecidableEq

/-- The sort relation of `sorted(..., key=lambda t: t[1])`: compare run
numbers. -/
def runLe (a b : RunRecord) : Prop := a.runNumber ≤ b.runNumber

instance : DecidableRel runLe :=
  fun a b => inferInstanceAs (Decidable (a.runNumber ≤ b.runNumber))

instance : IsTotal RunRecord runLe := ⟨fun a b => le_total a.runNumber b.runNumber⟩

instance : IsTrans RunRecord runLe := ⟨fun _ _ _ h1 h2 => le_trans h1 h2⟩

/-- Python's `sorted` by run number: a stable sort, modelled by insertion
sort (any two stable sorts of the same list agree). -/
def sortRun (l : List RunRecord) : List RunRecord := List.insertionSort runLe l

/-- The survivor of one duplicate comparison: the later completion date wins,
and on equal dates the record kept so far is retained
(`if new.date > prev.date: keep new else keep prev`). -/
def pick (p r : RunRecord) : RunRecord := if pyStrLt p.date r.date then r else p

/-- The deduplication scan over the run-number-sorted list: `prev` is the
entry kept so far; an adjacent duplicate run number is resolved by `pick`,
a new run number emits `prev` and carries on. -/
def dedupLoop : RunRecord → List RunRecord → List RunRecord
  | prev, [] => [prev]
  | prev, r :: rest =>
    if r.runNumber = prev.runNumber then dedupLoop (pick prev r) rest
    else prev :: dedupLoop r rest

/-- The deduplication pass on a sorted list. -/
def dedup : List RunRecord → List RunRecord
  | [] => []
  | x :: xs => dedupLoop x xs

/-- The canonical run sequence: sort by run number, remove adjacent
duplicates, re-sort. -/
def canonical (l : List RunRecord) : List RunRecord := sortRun (dedup (sortRun l))

/-- The fold that identifies the survivor of one run-number group. -/
def groupWinner : List RunRecord → List RunRecord
  | [] => []
  | g0 :: gs => [gs.foldl pick g0]

/-! ### The registry pipeline of `run_summary` (`run_summary.py` lines 286-531)

Job entries are keyed by job id; the PBS fields are the three parsed items
the pipeline branches on.  External data (git log, MOM time stamp, parsed
config and namelists, git diff) is supplied by an environment, since the
pipeline only stores those trees; path construction and file reading are
inside the environment functions. -/

/-- The three `PBS log` fields the pipeline branches on (each nullable). -/
structure PbsFields where
  runNumber : Option Int
  completionDate : Option String
  exitStatus : Option Int
  deriving Repr, DecidableEq

/-- One `run_data[jobid]` composite record. -/
structure JobEntry where
  jobid : Int
  pbs : PbsFields
  gitLog : Option PyVal := Option.none
  momTime : Option PyVal := Option.none
  config : Option PyVal := Option.none
  namelists : Option (List (String × Option PyVal)) := Option.none
  timing : Option PyVal := Option.none
  gitDiff : Option PyVal := Option.none

/-- The external data sources of the pipeline, keyed by what the source code
keys them by (the completion date for the git log, the run number for the
output-directory reads, the two job ids for the git diff). -/
structure Env where
  gitLog : String → PyVal
  momTime : Option Int → PyVal
  config : Option Int → PyVal
  namelists : Option Int → List (String × Option PyVal)
  gitDiff : Int → Int → PyVal

/-- The enrichment pass (lines 319-333): attach the git log when the
completion date is non-null; attach MOM time stamp, config tree and
namelists additionally when the exit status equals 0. -/
def enrich (env : Env) (e : JobEntry) : JobEntry :=
  match e.pbs.completionDate with
  | Option.none => e
  | some date =>
    let e1 := { e with gitLog := some (env.gitLog date) }
    if e.pbs.exitStatus = some 0 then
      { e1 with momTime := some (env.momTime e.pbs.runNumber),
                config := some (env.config e.pbs.runNumber),
                namelists := some (env.namelists e.pbs.runNumber) }
    else e1

/-- The failed-job removal predicate (lines 338-345): keep a job iff its
completion date is non-null and its exit status equals 0. -/
def isSuccess (e : JobEntry) : Bool :=
  e.pbs.completionDate.isSome && decide (e.pbs.exitStatus = some 0)

/-- The resolver view of a surviving entry; `none` when the run number is
missing (sorting a `None` run number raises `TypeError` in Python 3). -/
def toRun? (e : JobEntry) : Option RunRecord :=
  match e.pbs.runNumber, e.pbs.completionDate with
  | some r, some d => some ⟨e.jobid, r, d⟩
  | _, _ => Option.none

/-- All survivors as resolver records, or `none` if any lacks a run number. -/
def toRuns? : List JobEntry → Option (List RunRecord)
  | [] => some []
  | e :: rest =>
    match toRun? e, toRuns? rest with
    | some r, some rs => some (r :: rs)
    | _, _ => Option.none

/-- The timing normalization (lines 382-392), using Python subscript
semantics on the stored trees: the non-YATM shape reads
`config['submodels'][1]['timestep']` and `config['calendar']['runtime']`,
the YATM shape reads the `accessom2.nml` namelist; any shape mismatch is the
corresponding Python exception. -/
def computeTiming (e : JobEntry) : Except PyErr PyVal :=
  match e.namelists with
  | Option.none => Except.error PyErr.keyError
  | some nmls =>
    match lookupA nmls "accessom2.nml" with
    | Option.none => Except.error PyErr.keyError
    | some Option.none =>
      match e.config with
      | Option.none => Except.error PyErr.keyError
      | some cfg => do
        let sm ← pySub cfg (PyKey.str "submodels")
        let sm1 ← pySub sm (PyKey.int 1)
        let ts ← pySub sm1 (PyKey.str "timestep")
        let cal ← pySub cfg (PyKey.str "calendar")
        let rt ← pySub cal (PyKey.str "runtime")
        let ys ← pySub rt (PyKey.str "years")
        let ms ← pySub rt (PyKey.str "months")
        let ds ← pySub rt (PyKey.str "days")
        Except.ok (PyVal.dict [(PyKey.str "Timestep", ts),
          (PyKey.str "Run length", PyVal.list [ys, ms, ds, PyVal.int 0])])
    | some (some acc) => do
        let anml ← pySub acc (PyKey.str "accessom2_nml")
        let ts ← pySub anml (PyKey.str "ice_ocean_timestep")
        let dm ← pySub acc (PyKey.str "date_manager_nml")
        let rp ← pySub dm (PyKey.str "restart_period")
        match rp with
        | PyVal.list xs => do
            let x2 ← pySub rp (PyKey.int 2)
            Except.ok (PyVal.dict [(PyKey.str "Timestep", ts),
              (PyKey.str "Run length", PyVal.list (xs.take 2 ++ [PyVal.int 0, x2]))])
        | _ => Except.error PyErr.typeError

/-- Attach the computed timing entry to one record. -/
def addTiming (e : JobEntry) : Except PyErr JobEntry := do
  let t ← computeTiming e
  Except.ok { e with timing := some t }

/-- The timing pass over the post-dedup registry; an exception aborts the
whole run (Python has no handler around this loop). -/
def addTimings : List JobEntry → Except PyErr (List JobEntry)
  | [] => Except.ok []
  | e :: rest => do
    let e' ← addTiming e
    let rest' ← addTimings rest
    Except.ok (e' :: rest')

/-- The git-diff pass (lines 394-400): each canonical run diffs against the
chronologically preceding canonical run (the first against itself,
`sortedjobids[max(i-1, 0)]`). -/
def attachGitDiffs (env : Env) (sortedIds : List Int) (reg : List JobEntry) :
    List JobEntry :=
  reg.map (fun e =>
    let i := sortedIds.indexOf e.jobid
    { e with gitDiff := some (env.gitDiff (sortedIds.getD (i - 1) 0) e.jobid) })

/-- The registry pipeline of `run_summary` after the PBS logs are parsed:
enrichment, failed-job removal, the abort check (`ok none` is the printed
`Aborting: no successful jobs?` path, reached before any output file is
opened), deduplication, re-sort, the second abort check, the timing pass and
the git-diff pass.  `ok (some reg)` is the registry from which the output
file is written. -/
def run_summary (env : Env) (jobs : List JobEntry) :
    Except PyErr (Option (List JobEntry)) :=
  let enriched := jobs.map (enrich env)
  let survivors := enriched.filter isSuccess
  match toRuns? survivors with
  | Option.none => Except.error PyErr.typeError
  | some runs =>
    match sortRun runs with
    | [] => Except.ok Option.none
    | t0 :: trest =>
      match sortRun (dedupLoop t0 trest) with
      | [] => Except.ok Option.none
      | t :: ts =>
        let sortedIds := (t :: ts).map (fun r => r.jobid)
        let reg := survivors.filter (fun e => sortedIds.contains e.jobid)
        match addTimings reg with
        | Except.error e => Except.error e
        | Except.ok reg2 => Except.ok (some (attachGitDiffs env sortedIds reg2))

/-! ### Resolver lemmas -/

/-- The membership test for one run-number group. -/
def runIs (n : Int) : RunRecord → Bool := fun r => r.runNumber == n

theorem pick_eq_or (p r : RunRecord) : pick p r = p ∨ pick p r = r := by
  unfold pick; split
  · exact Or.inr rfl
  · exact Or.inl rfl

theorem pick_runNumber (p r : RunRecord) (h : r.runNumber = p.runNumber) :
    (pick p r).runNumber = p.runNumber := by
  rcases pick_eq_or p r with hp | hp <;> rw [hp]
  exact h

theorem pyStrLtB_irrefl : ∀ cs : List Char, pyStrLtB cs cs = false := by
  intro cs
  induction cs with
  | nil => rfl
  | cons c cs ih => simp [pyStrLtB, lt_irrefl, ih]

theorem pyStrLtB_asymm : ∀ as bs : List Char,
    pyStrLtB as bs = true → pyStrLtB bs as = false := by
  intro as
  induction as with
  | nil =>
    intro bs h
    cases bs with
    | nil => simp [pyStrLtB] at h
    | cons b bs' => rfl
  | cons a as ih =>
    intro bs h
    cases bs with
    | nil => simp [pyStrLtB] at h
    | cons b bs' =>
      by_cases hab : a < b
      · simp [pyStrLtB, hab, asymm hab, not_lt.mpr (le_of_lt hab)]
      · by_cases hba : b < a
        · simp [pyStrLtB, hab, hba] at h
        · have h' : pyStrLtB as bs' = true := by simpa [pyStrLtB, hab, hba] using h
          simp [pyStrLtB, hab, hba, ih bs' h']

theorem pyStrLtB_not_lt_trans : ∀ (as bs cs : List Char),
    pyStrLtB bs as = false → pyStrLtB cs bs = false → pyStrLtB cs as = false := by
  intro as
  induction as with
  | nil =>
    intro bs cs _ _
    cases cs with
    | nil => rfl
    | cons c cs' => rfl
  | cons a as ih =>
    intro bs cs h1 h2
    cases bs with
    | nil => simp [pyStrLtB] at h1
    | cons b bs' =>
      cases cs with
      | nil => simp [pyStrLtB] at h2
      | cons c cs' =>
        by_cases hba : b < a
        · simp [pyStrLtB, hba] at h1
        · by_cases hcb : c < b
          · simp [pyStrLtB, hcb] at h2
          · have hab : a ≤ b := not_lt.mp hba
            have hbc : b ≤ c := not_lt.mp hcb
            have hca : ¬ c < a := not_lt.mpr (le_trans hab hbc)
            by_cases hac : a < c
            · simp [pyStrLtB, hca, hac]
            · have haeqc : a = c := le_antisymm (le_trans hab hbc) (not_lt.mp hac)
              have hbeqc : b = c := le_antisymm hbc (haeqc ▸ hab)
              have haeqb : a = b := haeqc.trans hbeqc.symm
              have hnab : ¬ a < b := by rw [haeqb]; exact lt_irrefl b
              have hnbc : ¬ b < c := by rw [hbeqc]; exact lt_irrefl c
              have h1' : pyStrLtB bs' as = false := by
                simpa [pyStrLtB, hba, hnab] using h1
              have h2' : pyStrLtB cs' bs' = false := by
                simpa [pyStrLtB, hcb, hnbc] using h2
              simpa [pyStrLtB, hca, hac] using ih bs' cs' h1' h2'

theorem pick_date_not_lt_left (p r : RunRecord) :
    pyStrLt (pick p r).date p.date = false := by
  unfold pick
  by_cases h : pyStrLt p.date r.date = true
  · rw [if_pos h]
    exact pyStrLtB_asymm _ _ h
  · rw [if_neg h]
    exact pyStrLtB_irrefl _

theorem pick_date_not_lt_right (p r : RunRecord) :
    pyStrLt (pick p r).date r.date = false := by
  unfold pick
  by_cases h : pyStrLt p.date r.date = true
  · rw [if_pos h]
    exact pyStrLtB_irrefl _
  · rw [if_neg h]
    simpa using h

theorem mem_dedupLoop : ∀ (rest : List RunRecord) (prev x : RunRecord),
    x ∈ dedupLoop prev rest → x ∈ prev :: rest := by
  intro rest
  induction rest with
  | nil => intro prev x h; simpa [dedupLoop] using h
  | cons r rest ih =>
    intro prev x h
    unfold dedupLoop at h
    split at h
    · rcases List.mem_cons.mp (ih (pick prev r) x h) with hp | hmem
      · subst hp
        rcases pick_eq_or prev r with hh | hh <;> rw [hh] <;> simp
      · simp [List.mem_cons_of_mem, hmem]
    · rcases List.mem_cons.mp h with hp | hmem
      · subst hp; simp
      · rcases List.mem_cons.mp (ih r x hmem) with hp | hm2
        · subst hp; simp
        · simp [hm2]

theorem dedupLoop_pairwise_lt : ∀ (rest : List RunRecord) (prev : RunRecord),
    List.Pairwise runLe (prev :: rest) →
    List.Pairwise (fun a b => a.runNumber < b.runNumber) (dedupLoop prev rest) := by
  intro rest
  induction rest with
  | nil => intro prev _; simp [dedupLoop]
  | cons r rest ih =>
    intro prev h
    rcases List.pairwise_cons.mp h with ⟨hprev, htail⟩
    rcases List.pairwise_cons.mp htail with ⟨hr, hrest⟩
    unfold dedupLoop
    split
    · apply ih (pick prev r)
      apply List.pairwise_cons.mpr
      refine ⟨fun x hx => ?_, hrest⟩
      rcases pick_eq_or prev r with hh | hh <;> rw [hh]
      · exact hprev x (List.mem_cons_of_mem _ hx)
      · exact hr x hx
    · next hne =>
      apply List.pairwise_cons.mpr
      constructor
      · intro x hx
        rcases List.mem_cons.mp (mem_dedupLoop rest r x hx) with hp | hmem
        · subst hp
          exact lt_of_le_of_ne (hprev x (List.mem_cons_self _ _)) (fun hc => hne (hc ▸ rfl))
        · exact lt_of_lt_of_le
            (lt_of_le_of_ne (hprev r (List.mem_cons_self _ _)) (fun hc => hne (hc ▸ rfl)))
            (hr x hmem)
      · exact ih r htail

theorem filter_orderedInsert_pos (n : Int) (x : RunRecord) :
    ∀ s : List RunRecord, x.runNumber = n →
    (List.orderedInsert runLe x s).filter (runIs n) = x :: s.filter (runIs n) := by
  intro s hx
  induction s with
  | nil => simp [List.orderedInsert, runIs, hx]
  | cons y ys ih =>
    by_cases hle : runLe x y
    · simp [List.orderedInsert, if_pos hle, runIs, hx]
    · have hylt : y.runNumber < x.runNumber := lt_of_not_le hle
      have hyn : ¬ y.runNumber = n := fun hc => absurd (hx ▸ hc) (ne_of_lt hylt)
      simp only [List.orderedInsert, if_neg hle]
      simp only [List.filter_cons]
      simp [runIs, hyn, ih]

theorem filter_orderedInsert_neg (n : Int) (x : RunRecord) :
    ∀ s : List RunRecord, x.runNumber ≠ n →
    (List.orderedInsert runLe x s).filter (runIs n) = s.filter (runIs n) := by
  intro s hx
  induction s with
  | nil => simp [List.orderedInsert, runIs, hx]
  | cons y ys ih =>
    by_cases hle : runLe x y
    · simp [List.orderedInsert, if_pos hle, List.filter_cons, runIs, hx]
    · simp only [List.orderedInsert, if_neg hle]
      simp only [List.filter_cons]
      rw [ih]

theorem filter_sortRun (n : Int) : ∀ l : List RunRecord,
    (sortRun l).filter (runIs n) = l.filter (runIs n) := by
  intro l
  induction l with
  | nil => rfl
  | cons a l ih =>
    unfold sortRun at ih ⊢
    rw [List.insertionSort]
    by_cases ha : a.runNumber = n
    · rw [filter_orderedInsert_pos n a _ ha, ih, List.filter_cons]
      simp [runIs, ha]
    · rw [filter_orderedInsert_neg n a _ ha, ih, List.filter_cons]
      simp [runIs, ha]

theorem foldl_pick_mem : ∀ (gs : List RunRecord) (g0 : RunRecord),
    gs.foldl pick g0 ∈ g0 :: gs := by
  intro gs
  induction gs with
  | nil => intro g0; simp
  | cons g gs ih =>
    intro g0
    rw [List.foldl_cons]
    rcases List.mem_cons.mp (ih (pick g0 g)) with hp | hmem
    · rw [hp]
      rcases pick_eq_or g0 g with hh | hh <;> rw [hh] <;> simp
    · simp [hmem]

theorem foldl_pick_date_max : ∀ (gs : List RunRecord) (g0 x : RunRecord),
    x ∈ g0 :: gs → pyStrLt (gs.foldl pick g0).date x.date = false := by
  intro gs
  induction gs with
  | nil =>
    intro g0 x hx
    rcases List.mem_cons.mp hx with hp | hm
    · rw [hp]; exact pyStrLtB_irrefl _
    · cases hm
  | cons g gs ih =>
    intro g0 x hx
    rw [List.foldl_cons]
    have hpick : pyStrLt (List.foldl pick (pick g0 g) gs).date (pick g0 g).date = false :=
      ih (pick g0 g) (pick g0 g) (List.mem_cons_self _ _)
    rcases List.mem_cons.mp hx with hp | hm
    · rw [hp]
      exact pyStrLtB_not_lt_trans _ _ _ (pick_date_not_lt_left g0 g) hpick
    · rcases List.mem_cons.mp hm with hp | hm2
      · rw [hp]
        exact pyStrLtB_not_lt_trans _ _ _ (pick_date_not_lt_right g0 g) hpick
      · exact ih (pick g0 g) x (List.mem_cons_of_mem _ hm2)

theorem dedupLoop_filter (n : Int) : ∀ (rest : List RunRecord) (prev : RunRecord),
    List.Pairwise runLe (prev :: rest) →
    (dedupLoop prev rest).filter (runIs n) =
      groupWinner ((prev :: rest).filter (runIs n)) := by
  intro rest
  induction rest with
  | nil =>
    intro prev _
    by_cases hp : prev.runNumber = n <;>
      simp [dedupLoop, List.filter_cons, runIs, hp, groupWinner]
  | cons r rest ih =>
    intro prev h
    rcases List.pairwise_cons.mp h with ⟨hprev, htail⟩
    rcases List.pairwise_cons.mp htail with ⟨hr, _⟩
    unfold dedupLoop
    split
    · next heq =>
      have hpair : List.Pairwise runLe (pick prev r :: rest) := by
        apply List.pairwise_cons.mpr
        refine ⟨fun x hx => ?_, (List.pairwise_cons.mp htail).2⟩
        rcases pick_eq_or prev r with hh | hh <;> rw [hh]
        · exact hprev x (List.mem_cons_of_mem _ hx)
        · exact hr x hx
      rw [ih (pick prev r) hpair]
      by_cases hp : prev.runNumber = n
      · have hrn : r.runNumber = n := heq.trans hp
        have hpn : (pick prev r).runNumber = n := (pick_runNumber prev r heq).trans hp
        have l1 : (pick prev r :: rest).filter (runIs n) =
            pick prev r :: rest.filter (runIs n) := by
          rw [List.filter_cons]; simp [runIs, hpn]
        have l2 : (prev :: r :: rest).filter (runIs n) =
            prev :: r :: rest.filter (runIs n) := by
          rw [List.filter_cons, List.filter_cons]; simp [runIs, hp, hrn]
        rw [l1, l2]
        simp [groupWinner, List.foldl_cons]
      · have hrn : ¬ r.runNumber = n := fun hc => hp (heq ▸ hc)
        have hpn : ¬ (pick prev r).runNumber = n :=
          fun hc => hp ((pick_runNumber prev r heq) ▸ hc)
        have l1 : (pick prev r :: rest).filter (runIs n) = rest.filter (runIs n) := by
          rw [List.filter_cons]; simp [runIs, hpn]
        have l2 : (prev :: r :: rest).filter (runIs n) = rest.filter (runIs n) := by
          rw [List.filter_cons, List.filter_cons]; simp [runIs, hp, hrn]
        rw [l1, l2]
    · next hne =>
      have hlt : prev.runNumber < r.runNumber :=
        lt_of_le_of_ne (hprev r (List.mem_cons_self _ _)) (fun hc => hne (hc ▸ rfl))
      by_cases hp : prev.runNumber = n
      · have hnone : ∀ x ∈ r :: rest, ¬ runIs n x = true := by
          intro x hx
          have hge : r.runNumber ≤ x.runNumber := by
            rcases List.mem_cons.mp hx with h1 | h1
            · rw [h1]
            · exact hr x h1
          have : n < x.runNumber := lt_of_lt_of_le (hp ▸ hlt) hge
          simp [runIs]
          exact (ne_of_lt this).symm
        have hfil1 : (dedupLoop r rest).filter (runIs n) = [] := by
          apply List.filter_eq_nil_iff.mpr
          intro x hx
          exact hnone x (mem_dedupLoop rest r x hx)
        have hfil2 : (r :: rest).filter (runIs n) = [] :=
          List.filter_eq_nil_iff.mpr hnone
        rw [List.filter_cons, List.filter_cons]
        simp only [runIs] at hfil1 hfil2 ⊢
        simp [hp, hfil1, hfil2, groupWinner]
      · have l1 : (prev :: dedupLoop r rest).filter (runIs n) =
            (dedupLoop r rest).filter (runIs n) := by
          rw [List.filter_cons]; simp [runIs, hp]
        have l2 : (prev :: r :: rest).filter (runIs n) = (r :: rest).filter (runIs n) := by
          rw [List.filter_cons]; simp [runIs, hp]
        rw [l1, l2]
        exact ih r htail

theorem dedupLoop_sorted_le (rest : List RunRecord) (prev : RunRecord)
    (h : List.Pairwise runLe (prev :: rest)) :
    List.Pairwise runLe (dedupLoop prev rest) :=
  (dedupLoop_pairwise_lt rest prev h).imp (fun hab => le_of_lt hab)

theorem canonical_eq_dedup (l : List RunRecord) :
    canonical l = dedup (sortRun l) := by
  unfold canonical
  cases hs : sortRun l with
  | nil => rfl
  | cons x xs =>
    have hsorted : List.Pairwise runLe (x :: xs) := by
      have := List.sorted_insertionSort runLe l
      rw [show List.insertionSort runLe l = sortRun l from rfl, hs] at this
      exact this
    show sortRun (dedupLoop x xs) = dedupLoop x xs
    exact List.Sorted.insertionSort_eq (dedupLoop_sorted_le xs x hsorted)

theorem canonical_filter (l : List RunRecord) (n : Int) :
    (canonical l).filter (runIs n) = groupWinner (l.filter (runIs n)) := by
  rw [canonical_eq_dedup]
  cases hs : sortRun l with
  | nil =>
    have hl : l = [] := by
      have := List.length_insertionSort runLe l
      rw [show List.insertionSort runLe l = sortRun l from rfl, hs] at this
      exact List.length_eq_zero.mp this.symm
    subst hl
    rfl
  | cons x xs =>
    have hsorted : List.Pairwise runLe (x :: xs) := by
      have := List.sorted_insertionSort runLe l
      rw [show List.insertionSort runLe l = sortRun l from rfl, hs] at this
      exact this
    show (dedupLoop x xs).filter (runIs n) = _
    rw [dedupLoop_filter n xs x hsorted, ← hs, filter_sortRun]

/-! ### Claims about the resolver (C1, C2, C10) -/

/-- C2: for any input list of successful RunRecords, the canonical run
sequence produced by the sort / adjacent-duplicate-removal / re-sort pass is
strictly increasing in run number: it contains no two entries with the same
run number and is ordered by run number ascending. -/
theorem canonical_strictly_increasing (l : List RunRecord) :
    List.Pairwise (fun a b => a.runNumber < b.runNumber) (canonical l) := by
  rw [canonical_eq_dedup]
  cases hs : sortRun l with
  | nil => simp [dedup]
  | cons x xs =>
    have hsorted : List.Pairwise runLe (x :: xs) := by
      have := List.sorted_insertionSort runLe l
      rw [show List.insertionSort runLe l = sortRun l from rfl, hs] at this
      exact this
    exact dedupLoop_pairwise_lt xs x hsorted

/-- C1: if exactly two successful RunRecords `a` and `b` share a run number
and `a.date < b.date`, the resolver deletes `a` and retains only `b`: the
canonical sequence contains exactly one record with that run number, namely
`b`. -/
theorem resolver_pair_keeps_later (l : List RunRecord) (a b : RunRecord)
    (hA : a ∈ l) (hB : b ∈ l) (hrun : a.runNumber = b.runNumber)
    (hdate : pyStrLt a.date b.date = true)
    (honly : ∀ x ∈ l, x.runNumber = a.runNumber → x = a ∨ x = b) :
    a ∉ canonical l ∧ (canonical l).filter (runIs a.runNumber) = [b] := by
  have hfb : b ∈ l.filter (runIs a.runNumber) :=
    List.mem_filter.mpr ⟨hB, by simp [runIs, hrun]⟩
  cases hg : l.filter (runIs a.runNumber) with
  | nil => rw [hg] at hfb; cases hfb
  | cons g0 gs =>
    have hcanfil : (canonical l).filter (runIs a.runNumber) = [gs.foldl pick g0] := by
      rw [canonical_filter, hg]; rfl
    have hwmem : gs.foldl pick g0 ∈ l.filter (runIs a.runNumber) := by
      rw [hg]; exact foldl_pick_mem gs g0
    have hw_in_l : gs.foldl pick g0 ∈ l := (List.mem_filter.mp hwmem).1
    have hw_run : (gs.foldl pick g0).runNumber = a.runNumber := by
      have := (List.mem_filter.mp hwmem).2
      simpa [runIs] using this
    have hble : pyStrLt (gs.foldl pick g0).date b.date = false := by
      rw [hg] at hfb
      exact foldl_pick_date_max gs g0 b hfb
    have hwb : gs.foldl pick g0 = b := by
      rcases honly _ hw_in_l hw_run with hwa | hwb
      · rw [hwa] at hble
        rw [hble] at hdate
        exact Bool.noConfusion hdate
      · exact hwb
    constructor
    · intro hacan
      have hmem : a ∈ (canonical l).filter (runIs a.runNumber) :=
        List.mem_filter.mpr ⟨hacan, by simp [runIs]⟩
      rw [hcanfil, hwb] at hmem
      have hab : a = b := by simpa using hmem
      rw [hab] at hdate
      rw [show pyStrLt b.date b.date = false from pyStrLtB_irrefl _] at hdate
      exact Bool.noConfusion hdate
    · rw [hcanfil, hwb]

/-- Witness for C1 at a concrete pair: jobids 1 and 2 both carry run number
42, dates 2018-01-01 < 2018-01-02; only the jobid-2 record survives. -/
theorem resolver_pair_keeps_later_witness :
    (⟨1, 42, "2018-01-01"⟩ : RunRecord) ∉
      canonical [⟨1, 42, "2018-01-01"⟩, ⟨2, 42, "2018-01-02"⟩] ∧
    (canonical [⟨1, 42, "2018-01-01"⟩, ⟨2, 42, "2018-01-02"⟩]).filter (runIs 42) =
      [⟨2, 42, "2018-01-02"⟩] :=
  resolver_pair_keeps_later
    [⟨1, 42, "2018-01-01"⟩, ⟨2, 42, "2018-01-02"⟩]
    ⟨1, 42, "2018-01-01"⟩ ⟨2, 42, "2018-01-02"⟩
    (by decide) (by decide) (by decide) (by decide) (by decide)

/-- C10: when two adjacent entries of the run-number-sorted order share a
run number and their completion dates are equal, the entry kept so far (the
earlier one, `a`) is retained and the later-encountered entry is
discarded. -/
theorem resolver_tie_keeps_first (s : List RunRecord) (n : Int) (a b : RunRecord)
    (hs : List.Pairwise runLe s)
    (hf : s.filter (runIs n) = [a, b]) (hd : a.date = b.date) :
    (canonical s).filter (runIs n) = [a] := by
  rw [canonical_filter, hf]
  show [List.foldl pick a [b]] = [a]
  simp [List.foldl_cons, pick, hd, pyStrLt, pyStrLtB_irrefl]

/-- Witness for C10 at a concrete tie: both records carry run number 7 and
the same date; the first one in sorted order survives. -/
theorem resolver_tie_keeps_first_witness :
    (canonical [⟨1, 7, "2020-01-01"⟩, ⟨2, 7, "2020-01-01"⟩]).filter (runIs 7) =
      [⟨1, 7, "2020-01-01"⟩] :=
  resolver_tie_keeps_first
    [⟨1, 7, "2020-01-01"⟩, ⟨2, 7, "2020-01-01"⟩] 7
    ⟨1, 7, "2020-01-01"⟩ ⟨2, 7, "2020-01-01"⟩
    (by constructor
        · intro x hx
          rcases List.mem_singleton.mp hx with rfl
          exact le_refl _
        · constructor
          · intro x hx; cases hx
          · exact List.Pairwise.nil)
    (by decide) (by decide)

/-! ### Pipeline lemmas -/

theorem enrich_pbs (env : Env) (e : JobEntry) : (enrich env e).pbs = e.pbs := by
  unfold enrich
  split
  · rfl
  · split <;> rfl

theorem enrich_sections (env : Env) (e : JobEntry)
    (hd : e.pbs.completionDate.isSome = true) (hx : e.pbs.exitStatus = some 0) :
    (enrich env e).config.isSome = true ∧ (enrich env e).namelists.isSome = true := by
  unfold enrich
  cases h : e.pbs.completionDate with
  | none => rw [h] at hd; cases hd
  | some d =>
    dsimp only
    rw [if_pos hx]
    exact ⟨rfl, rfl⟩

theorem addTiming_ok (x y : JobEntry) (h : addTiming x = Except.ok y) :
    y.pbs = x.pbs ∧ y.config = x.config ∧ y.namelists = x.namelists ∧
      y.timing.isSome = true := by
  unfold addTiming at h
  cases hc : computeTiming x with
  | error e => rw [hc] at h; cases h
  | ok t =>
    rw [hc] at h
    have hy : ({ x with timing := some t } : JobEntry) = y := by
      cases h; rfl
    rw [← hy]
    exact ⟨rfl, rfl, rfl, rfl⟩

theorem addTimings_mem : ∀ (l l' : List JobEntry), addTimings l = Except.ok l' →
    ∀ y ∈ l', ∃ x ∈ l, addTiming x = Except.ok y := by
  intro l
  induction l with
  | nil =>
    intro l' h y hy
    cases h
    cases hy
  | cons e rest ih =>
    intro l' h y hy
    unfold addTimings at h
    cases he : addTiming e with
    | error err => rw [he] at h; cases h
    | ok e' =>
      rw [he] at h
      cases hr : addTimings rest with
      | error err =>
        rw [hr] at h
        cases h
      | ok rest' =>
        rw [hr] at h
        have hl : e' :: rest' = l' := by cases h; rfl
        rw [← hl] at hy
        rcases List.mem_cons.mp hy with hp | hm
        · exact ⟨e, List.mem_cons_self _ _, hp ▸ he⟩
        · rcases ih rest' hr y hm with ⟨x, hx, hxy⟩
          exact ⟨x, List.mem_cons_of_mem _ hx, hxy⟩

/-! ### Claims about the pipeline (C7, C8) -/

/-- C7: in the registry from which the output file is written, every
RunRecord has its config tree, namelist trees and timing entry present if
and only if its exit status equals 0 and its completion timestamp is
non-null. -/
theorem registry_sections_iff_success (env : Env) (jobs : List JobEntry)
    (reg : List JobEntry) (h : run_summary env jobs = Except.ok (some reg)) :
    ∀ e ∈ reg,
      (e.config.isSome = true ∧ e.namelists.isSome = true ∧ e.timing.isSome = true) ↔
      (e.pbs.exitStatus = some 0 ∧ e.pbs.completionDate.isSome = true) := by
  intro e he
  simp only [run_summary] at h
  split at h
  · cases h
  · split at h
    · cases h
    · split at h
      · cases h
      · next t ts heq2 =>
        split at h
        · cases h
        · next reg2 htim =>
          have hreg : attachGitDiffs env ((t :: ts).map (fun r => r.jobid)) reg2 = reg := by
            cases h; rfl
          rw [← hreg] at he
          unfold attachGitDiffs at he
          rcases List.mem_map.mp he with ⟨e2, he2, hfe⟩
          rcases addTimings_mem _ _ htim e2 he2 with ⟨e1, he1, hadd⟩
          have he1s : e1 ∈ (jobs.map (enrich env)).filter isSuccess :=
            List.mem_filter.mp he1 |>.1
          have hsucc : isSuccess e1 = true := (List.mem_filter.mp he1s).2
          rcases List.mem_map.mp ((List.mem_filter.mp he1s).1) with ⟨j, _, hje⟩
          have hsp : e1.pbs.completionDate.isSome = true ∧ e1.pbs.exitStatus = some 0 := by
            have := hsucc
            unfold isSuccess at this
            rcases Bool.and_eq_true_iff.mp this with ⟨h1, h2⟩
            exact ⟨h1, of_decide_eq_true h2⟩
          have hjd : j.pbs.completionDate.isSome = true := by
            rw [← hje] at hsp
            rw [enrich_pbs] at hsp
            exact hsp.1
          have hjx : j.pbs.exitStatus = some 0 := by
            rw [← hje] at hsp
            rw [enrich_pbs] at hsp
            exact hsp.2
          have hsec : e1.config.isSome = true ∧ e1.namelists.isSome = true := by
            rw [← hje]
            exact enrich_sections env j hjd hjx
          rcases addTiming_ok e1 e2 hadd with ⟨hp2, hc2, hn2, ht2⟩
          have hepbs : e.pbs = e1.pbs := by rw [← hfe]; rw [hp2]
          have heconf : e.config = e1.config := by rw [← hfe]; rw [hc2]
          have henml : e.namelists = e1.namelists := by rw [← hfe]; rw [hn2]
          have hetim : e.timing.isSome = true := by rw [← hfe]; exact ht2
          apply iff_of_true
          · exact ⟨heconf ▸ hsec.1, henml ▸ hsec.2, hetim⟩
          · exact ⟨hepbs ▸ hsp.2, hepbs ▸ hsp.1⟩

/-- C8: whenever the set of successful jobs (non-null completion date and
exit status 0) is empty, the pipeline halts on the abort path and writes no
output. -/
theorem abort_when_no_successful_jobs (env : Env) (jobs : List JobEntry)
    (h : ∀ e ∈ jobs,
      ¬ (e.pbs.completionDate.isSome = true ∧ e.pbs.exitStatus = some 0)) :
    run_summary env jobs = Except.ok Option.none := by
  have hfil : (jobs.map (enrich env)).filter isSuccess = [] := by
    apply List.filter_eq_nil_iff.mpr
    intro a ha
    rcases List.mem_map.mp ha with ⟨j, hj, hja⟩
    specialize h j hj
    rw [← hja]
    unfold isSuccess
    rw [enrich_pbs]
    intro hc
    rcases Bool.and_eq_true_iff.mp hc with ⟨h1, h2⟩
    exact h ⟨h1, of_decide_eq_true h2⟩
  simp only [run_summary, hfil]
  rfl

/-- A concrete non-YATM config tree for pipeline witnesses. -/
def cfg0 : PyVal := PyVal.dict [
  (PyKey.str "submodels", PyVal.list [PyVal.none, PyVal.dict [(PyKey.str "timestep", PyVal.int 1800)]]),
  (PyKey.str "calendar", PyVal.dict [(PyKey.str "runtime", PyVal.dict
    [(PyKey.str "years", PyVal.int 1), (PyKey.str "months", PyVal.int 0),
     (PyKey.str "days", PyVal.int 0)])])]

/-- A concrete environment for pipeline witnesses. -/
def env0 : Env :=
  { gitLog := fun _ => PyVal.none,
    momTime := fun _ => PyVal.none,
    config := fun _ => cfg0,
    namelists := fun _ => [("accessom2.nml", Option.none)],
    gitDiff := fun _ _ => PyVal.none }

/-- One successful job for the C7 witness. -/
def job0 : JobEntry :=
  { jobid := 7,
    pbs := { runNumber := some 1, completionDate := some "2020-01-01T00:00:00",
             exitStatus := some 0 } }

/-- The registry entry the pipeline produces for `job0` under `env0`. -/
def entry0 : JobEntry :=
  { jobid := 7,
    pbs := { runNumber := some 1, completionDate := some "2020-01-01T00:00:00",
             exitStatus := some 0 },
    gitLog := some PyVal.none,
    momTime := some PyVal.none,
    config := some cfg0,
    namelists := some [("accessom2.nml", Option.none)],
    timing := some (PyVal.dict [(PyKey.str "Timestep", PyVal.int 1800),
      (PyKey.str "Run length", PyVal.list [PyVal.int 1, PyVal.int 0, PyVal.int 0, PyVal.int 0])]),
    gitDiff := some PyVal.none }

/-- Witness for C7: running the pipeline on the one successful `job0` yields
the registry `[entry0]`, and the section-presence iff holds at `entry0`. -/
theorem registry_sections_iff_success_witness :
    (entry0.config.isSome = true ∧ entry0.namelists.isSome = true ∧
      entry0.timing.isSome = true) ↔
    (entry0.pbs.exitStatus = some 0 ∧ entry0.pbs.completionDate.isSome = true) :=
  registry_sections_iff_success env0 [job0] [entry0] rfl entry0
    (List.mem_cons_self _ _)

/-- One failed job (null completion date) for the C8 witness. -/
def jobF : JobEntry :=
  { jobid := 3,
    pbs := { runNumber := some 2, completionDate := Option.none,
             exitStatus := some 0 } }

/-- Witness for C8: with only the failed `jobF` in the registry, the
pipeline aborts and writes nothing. -/
theorem abort_when_no_successful_jobs_witness :
    run_summary env0 [jobF] = Except.ok Option.none :=
  abort_when_no_successful_jobs env0 [jobF] (by
    intro e he
    rcases List.mem_singleton.mp he with rfl
    intro hc
    simpa [jobF] using hc.1)

/-! ### Claims about `parse_pbs_log` (C3, C9) -/

theorem applyKey_ne_idx (items : PbsDict) (line : String)
    (kv : String × (List String → Except PyErr PyVal)) :
    applyKey items line kv ≠ Except.error PyErr.indexError := by
  unfold applyKey
  cases hsc : (pySplitStr line kv.1).get? 1 with
  | none => simp
  | some rest =>
    cases hop : kv.2 (pySplitWs rest) with
    | ok v => simp [hop]
    | error e => cases e <;> simp [hop]

theorem foldKeys_ne_idx (line : String) :
    ∀ (tbl : List (String × (List String → Except PyErr PyVal))) (items : PbsDict),
    foldKeys line items tbl ≠ Except.error PyErr.indexError := by
  intro tbl
  induction tbl with
  | nil => intro items h; simp [foldKeys] at h
  | cons kv rest ih =>
    intro items h
    unfold foldKeys at h
    cases hak : applyKey items line kv with
    | ok items' =>
      rw [hak] at h
      exact ih items' h
    | error e =>
      rw [hak] at h
      simp at h
      exact applyKey_ne_idx items line kv (h ▸ hak)

theorem foldLines_ne_idx : ∀ (lines : List String) (items : PbsDict),
    foldLines items lines ≠ Except.error PyErr.indexError := by
  intro lines
  induction lines with
  | nil => intro items h; simp [foldLines] at h
  | cons line rest ih =>
    intro items h
    unfold foldLines at h
    cases hfk : foldKeys line items search_items with
    | ok items' =>
      rw [hfk] at h
      exact ih items' h
    | error e =>
      rw [hfk] at h
      simp at h
      exact foldKeys_ne_idx line search_items items (h ▸ hfk)

theorem parse_pbs_log_ne_idx (lines : List String) :
    parse_pbs_log lines ≠ Except.error PyErr.indexError := by
  unfold parse_pbs_log
  cases hf : foldLines initItems lines with
  | error e =>
    intro h
    simp at h
    exact foldLines_ne_idx lines initItems (h ▸ hf)
  | ok items => simp

/-- C3 (amended): a missing marker, or an extractor `IndexError` on too few
trailing tokens, leaves the field at its previous value and parsing
continues — `parse_pbs_log` never aborts with an `IndexError`.  (Malformed
tokens raising `ValueError`/`KeyError` do abort the record — see the
counterexample.) -/
theorem parser_recovers_from_marker_misses :
    (∀ (items : PbsDict) (line : String)
        (kv : String × (List String → Except PyErr PyVal)),
        ((pySplitStr line kv.1).get? 1 = Option.none ∨
         (∃ rest, (pySplitStr line kv.1).get? 1 = some rest ∧
           kv.2 (pySplitWs rest) = Except.error PyErr.indexError)) →
        applyKey items line kv = Except.ok items) ∧
    ∀ lines : List String, parse_pbs_log lines ≠ Except.error PyErr.indexError := by
  constructor
  · intro items line kv h
    unfold applyKey
    rcases h with hn | ⟨rest, h1, h2⟩
    · rw [hn]
    · simp only [h1, h2]
  · exact fun lines => parse_pbs_log_ne_idx lines

/-- C3 counterexample: a present marker with a malformed integer token
raises `ValueError`, aborting the whole record (only `IndexError` is
caught). -/
theorem parser_aborts_on_malformed_token :
    parse_pbs_log ["   Exit Status:        xyz"] = Except.error PyErr.valueError := rfl

/-- Witness for C3: the `Exit Status` marker present with no trailing token
makes the extractor raise `IndexError`, and the parse step leaves the dict
unchanged. -/
theorem parser_recovers_from_marker_misses_witness :
    applyKey initItems "   Exit Status:" ("Exit Status", exGetint) =
      Except.ok initItems :=
  parser_recovers_from_marker_misses.1 initItems "   Exit Status:"
    ("Exit Status", exGetint) (Or.inr ⟨":", rfl, rfl⟩)

/-- C9 (amended): `getbytes` parses `<number><unit>` with binary 1024-based
multipliers; `"11.66TB"` yields 12,820,305,579,868 bytes (not the
12,823,626,467,983 the spec states) and `"1.0KB"` yields 1024. -/
theorem getbytes_binary_multipliers :
    exGetbytes [":", "11.66TB"] = Except.ok (PyVal.int 12820305579868) ∧
    exGetbytes [":", "1.0KB"] = Except.ok (PyVal.int 1024) ∧
    unitsTable "B" = some 1 ∧ unitsTable "KB" = some (2 ^ 10) ∧
    unitsTable "MB" = some (2 ^ 20) ∧ unitsTable "GB" = some (2 ^ 30) ∧
    unitsTable "TB" = some (2 ^ 40) :=
  ⟨rfl, rfl, rfl, rfl, rfl, rfl, rfl⟩

/-- C9 counterexample: `getbytes("11.66TB")` is 12,820,305,579,868
(`round(11.66 * 2^40)`), which differs from the spec's claimed
12,823,626,467,983. -/
theorem getbytes_spec_value_wrong :
    exGetbytes [":", "11.66TB"] = Except.ok (PyVal.int 12820305579868) ∧
    (12820305579868 : Int) ≠ 12823626467983 := ⟨rfl, by decide⟩

/-! ### Claim about `dictget` (C4) -/

theorem pySub_not_value (d : PyVal) (k : PyKey) :
    pySub d k ≠ Except.error PyErr.valueError := by
  intro h
  cases d with
  | none => cases k <;> simp [pySub] at h
  | int n => cases k <;> simp [pySub] at h
  | float q => cases k <;> simp [pySub] at h
  | str s =>
    cases k with
    | int i =>
      simp only [pySub] at h
      split at h <;> (try split at h) <;> simp at h
    | str s2 => simp [pySub] at h
  | list xs =>
    cases k with
    | int i =>
      simp only [pySub] at h
      split at h <;> (try split at h) <;> simp at h
    | str s2 => simp [pySub] at h
  | dict entries =>
    cases hl : lookupA entries k <;> simp [pySub, hl] at h

theorem dictgetList_error_is_index : ∀ (keys : List PyKey) (d : PyVal) (e : PyErr),
    dictgetList d keys = Except.error e → e = PyErr.indexError := by
  intro keys
  induction keys with
  | nil =>
    intro d e h
    unfold dictgetList at h
    injection h with h'
    exact h'.symm
  | cons k rest ih =>
    intro d e h
    unfold dictgetList at h
    cases hsub : pySub d k with
    | ok v =>
      rw [hsub] at h
      cases rest with
      | nil => cases h
      | cons k2 rest2 => exact ih v e h
    | error e' =>
      rw [hsub] at h
      cases e' with
      | keyError => cases h
      | typeError => cases h
      | indexError => injection h with h'; exact h'.symm
      | valueError => exact absurd hsub (pySub_not_value d k)

/-- C4 (amended): `dictget` returns `None` for missing mapping keys, for
non-subscriptable intermediate values and for a `None` key path — each such
miss yields exactly `None`, a successful subscript step returns (or recurses
on) the looked-up value itself — and the only exception it can raise is
`IndexError` (from an out-of-range integer index into a sequence, or an
empty key list); `KeyError` and `TypeError` are always caught. -/
theorem dictget_miss_contract :
    (∀ d : PyVal, dictget d Option.none = Except.ok PyVal.none) ∧
    (∀ (d : PyVal) (k : PyKey) (rest : List PyKey),
        (pySub d k = Except.error PyErr.keyError ∨
         pySub d k = Except.error PyErr.typeError) →
        dictgetList d (k :: rest) = Except.ok PyVal.none) ∧
    (∀ (entries : List (PyKey × PyVal)) (k : PyKey) (rest : List PyKey),
        lookupA entries k = Option.none →
        dictgetList (PyVal.dict entries) (k :: rest) = Except.ok PyVal.none) ∧
    (∀ (d : PyVal) (k : PyKey) (v : PyVal),
        pySub d k = Except.ok v → dictgetList d [k] = Except.ok v) ∧
    (∀ (d : PyVal) (k : PyKey) (v : PyVal) (k2 : PyKey) (rest : List PyKey),
        pySub d k = Except.ok v →
        dictgetList d (k :: k2 :: rest) = dictgetList v (k2 :: rest)) ∧
    (∀ d : PyVal, dictgetList d [] = Except.error PyErr.indexError) ∧
    (∀ (d : PyVal) (l : Option (List PyKey)) (e : PyErr),
        dictget d l = Except.error e → e = PyErr.indexError) := by
  refine ⟨fun d => rfl, ?_, ?_, ?_, ?_, fun d => rfl, ?_⟩
  · intro d k rest h
    unfold dictgetList
    rcases h with h | h <;> rw [h]
  · intro entries k rest h
    unfold dictgetList
    have hsub : pySub (PyVal.dict entries) k = Except.error PyErr.keyError := by
      show (match lookupA entries k with
            | some v => Except.ok v
            | Option.none => Except.error PyErr.keyError) = Except.error PyErr.keyError
      rw [h]
    rw [hsub]
  · intro d k v h
    unfold dictgetList
    rw [h]
  · intro d k v k2 rest h
    unfold dictgetList
    rw [h]
    rfl
  · intro d l e h
    cases l with
    | none => cases h
    | some keys => exact dictgetList_error_is_index keys d e h

/-- C4 counterexample: an out-of-range integer index into a sequence makes
`dictget` raise `IndexError` instead of returning `None`. -/
theorem dictget_raises_on_sequence_index :
    dictget (PyVal.list [PyVal.int 1, PyVal.int 2]) (some [PyKey.int 5]) =
      Except.error PyErr.indexError := rfl

/-- Witness for C4: a `None` key path, a missing mapping key and a
non-subscriptable value each yield `None` at concrete inputs, and at
`dictget([], [0])` the raised exception is indeed `IndexError`. -/
theorem dictget_miss_contract_witness :
    dictget (PyVal.int 3) Option.none = Except.ok PyVal.none ∧
    dictgetList (PyVal.dict [(PyKey.str "a", PyVal.int 1)]) [PyKey.str "b"] =
      Except.ok PyVal.none ∧
    dictgetList (PyVal.int 3) [PyKey.str "a"] = Except.ok PyVal.none ∧
    PyErr.indexError = PyErr.indexError :=
  ⟨dictget_miss_contract.1 (PyVal.int 3),
   dictget_miss_contract.2.2.1 [(PyKey.str "a", PyVal.int 1)] (PyKey.str "b") [] rfl,
   dictget_miss_contract.2.1 (PyVal.int 3) (PyKey.str "a") [] (Or.inr rfl),
   dictget_miss_contract.2.2.2.2.2.2 (PyVal.list []) (some [PyKey.int 0])
     PyErr.indexError rfl⟩

/-! ### Claim about `parse_git_log` (C5) -/

/-- C5 (amended): whenever the git pipeline's output has fewer than four
tab-separated fields — in particular the empty output produced when no
commit exists at or before the reference timestamp — `parse_git_log`
raises `IndexError` to its caller instead of returning an empty record. -/
theorem parse_git_log_short_output_raises (out : String)
    (h : (pySplitStr out "\t").length < 4) :
    parse_git_log_fields out = Except.error PyErr.indexError := by
  unfold parse_git_log_fields
  rcases hl : pySplitStr out "\t" with _ | ⟨a, _ | ⟨b, _ | ⟨c, _ | ⟨d, t⟩⟩⟩⟩
  · rfl
  · rfl
  · rfl
  · rfl
  · rw [hl] at h
    simp [List.length_cons] at h
    omega

/-- C5 counterexample: on the empty output of a no-result history query,
`parse_git_log` raises `IndexError` rather than returning an empty/absent
record. -/
theorem parse_git_log_no_commit_raises :
    parse_git_log_fields noCommitOutput = Except.error PyErr.indexError := rfl

/-- Witness for C5 at the empty output string. -/
theorem parse_git_log_short_output_raises_witness :
    parse_git_log_fields "" = Except.error PyErr.indexError :=
  parse_git_log_short_output_raises "" (by decide)

/-! ### Claim about the config/namelist readers (C6) -/

/-- C6 (amended): `parse_config_yaml` returns the tree at the first
candidate path holding a `config.yaml` (earlier paths win) and an absent
default when none does; `parse_nml`, whose path loop has no break, lets
**later** candidate paths overwrite namelists with the same relative key
from earlier paths, and returns the `accessom2.nml = None` default when no
path has any namelist file. -/
theorem config_first_namelist_last :
    (∀ (α : Type) (fs : String → Option α) (pre : List String) (p : String)
        (post : List String) (t : α),
        (∀ q ∈ pre, fs (q ++ "/config.yaml") = Option.none) →
        fs (p ++ "/config.yaml") = some t →
        parse_config_yaml fs (pre ++ p :: post) = some t) ∧
    (∀ (α : Type) (fs : String → Option α) (paths : List String),
        (∀ q ∈ paths, fs (q ++ "/config.yaml") = Option.none) →
        parse_config_yaml fs paths = Option.none) ∧
    (∀ t1 t2 : Int,
        lookupA (parse_nml [("sync/accessom2.nml", t1), ("arch/accessom2.nml", t2)]
          ["sync", "arch"]) "accessom2.nml" = some (some t2)) ∧
    (∀ t1 : Int,
        lookupA (parse_nml [("sync/accessom2.nml", t1)] ["sync", "arch"])
          "accessom2.nml" = some (some t1)) ∧
    parse_nml ([] : List (String × Int)) ["sync", "arch"] =
      [("accessom2.nml", Option.none)] := by
  refine ⟨?_, ?_, ?_, ?_, rfl⟩
  · intro α fs pre
    induction pre with
    | nil =>
      intro p post t _ hp
      show parse_config_yaml fs (p :: post) = some t
      unfold parse_config_yaml
      rw [hp]
    | cons q pre ih =>
      intro p post t hmiss hp
      show parse_config_yaml fs (q :: (pre ++ p :: post)) = some t
      unfold parse_config_yaml
      rw [hmiss q (List.mem_cons_self _ _)]
      exact ih p post t (fun q' hq' => hmiss q' (List.mem_cons_of_mem _ hq')) hp
  · intro α fs paths
    induction paths with
    | nil => intro _; rfl
    | cons q paths ih =>
      intro hmiss
      unfold parse_config_yaml
      rw [hmiss q (List.mem_cons_self _ _)]
      exact ih (fun q' hq' => hmiss q' (List.mem_cons_of_mem _ hq'))
  · intro t1 t2; rfl
  · intro t1; rfl

/-- C6 counterexample: with `accessom2.nml` present under both candidate
paths with different content, `parse_nml` returns the **later** path's
content, not the earlier path's as the claim states. -/
theorem parse_nml_later_path_overwrites :
    lookupA (parse_nml [("sync/accessom2.nml", (1 : Int)), ("arch/accessom2.nml", 2)]
      ["sync", "arch"]) "accessom2.nml" = some (some 2) ∧
    lookupA (parse_nml [("sync/accessom2.nml", (1 : Int)), ("arch/accessom2.nml", 2)]
      ["sync", "arch"]) "accessom2.nml" ≠ some (some 1) := by
  exact ⟨rfl, by decide⟩

/-- Witness for C6: with `config.yaml` only under the second path, the
reader skips the first path and returns the second path's tree. -/
theorem config_first_namelist_last_witness :
    parse_config_yaml
      (fun f => if f = "arch/config.yaml" then some (5 : Int) else Option.none)
      ["sync", "arch"] = some 5 :=
  config_first_namelist_last.1 Int
    (fun f => if f = "arch/config.yaml" then some (5 : Int) else Option.none)
    ["sync"] "arch" [] 5
    (by intro q hq
        rcases List.mem_singleton.mp hq with rfl
        rfl)
    rfl

end RunSummary
